import Mathlib

/-!
Verification of the repobee-sanitizer core: the marker lexer
(`_syntax.contained_marker`), the syntax validator (`_syntax.check_syntax`
and `_syntax._check_shred_syntax`), the transform engine
(`_sanitize._sanitize` and `_sanitize._strip`), the file dispatcher
(`_sanitize.sanitize_file`), and the dirty-file check
(`_syntax.file_is_dirty`).

Lines are modelled as `List Char` (elements of `text.split("\n")`, hence
newline-free).  Validation errors are modelled as the spec's
`ValidationError` value `(line_number : Option Nat, message : String)`;
the Python code renders the same data as a single f-string and delivers a
nonempty error list by raising `plug.PlugError`, which is modelled here by
the `Except.error` branch of `checkSyntax`.
-/

namespace Sanitizer

/-- The four marker kinds of `_syntax.Markers`, in enum-declaration order. -/
inductive Marker where
  | START
  | REPLACE
  | END
  | SHRED
deriving DecidableEq, Repr

/-- Literal token of `Markers.START`. -/
def startTok : List Char := "REPOBEE-SANITIZER-START".toList

/-- Literal token of `Markers.REPLACE`. -/
def replTok : List Char := "REPOBEE-SANITIZER-REPLACE-WITH".toList

/-- Literal token of `Markers.END`. -/
def endTok : List Char := "REPOBEE-SANITIZER-END".toList

/-- Literal token of `Markers.SHRED`. -/
def shredTok : List Char := "REPOBEE-SANITIZER-SHRED".toList

/-- Python's substring test `tok in line`. -/
def containsTok (tok : List Char) : List Char → Bool
  | [] => tok.isEmpty
  | c :: rest => tok.isPrefixOf (c :: rest) || containsTok tok rest

/-- The text preceding the first occurrence of `tok` in `line`:
the value of `re.match(r"(.*?)" + tok, line).group(1)` when `tok`
occurs in the (newline-free) `line`. -/
def pfxBefore (tok : List Char) : List Char → List Char
  | [] => []
  | c :: rest =>
    if tok.isPrefixOf (c :: rest) then [] else c :: pfxBefore tok rest

/-- `_syntax.contained_marker`: the first marker (in enum order
START, REPLACE, END, SHRED) whose token is a substring of the line. -/
def containedMarker (line : List Char) : Option Marker :=
  if containsTok startTok line then some .START
  else if containsTok replTok line then some .REPLACE
  else if containsTok endTok line then some .END
  else if containsTok shredTok line then some .SHRED
  else none

/-- The loop of `_sanitize._sanitize`, with the mutable `keep` and
`prefix_length` state passed explicitly. -/
def sanLoop : Bool → Nat → List (List Char) → List (List Char)
  | _, _, [] => []
  | keep, plen, line :: rest =>
    match containedMarker line with
    | some .START => sanLoop false (pfxBefore startTok line).length rest
    | some .REPLACE => sanLoop true plen rest
    | some .END => sanLoop true 0 rest
    | _ =>
      if keep then line.drop plen :: sanLoop keep plen rest
      else sanLoop keep plen rest

/-- `_sanitize._sanitize`: the Sanitize-mode transform. -/
def sanitizeLines (lines : List (List Char)) : List (List Char) :=
  sanLoop true 0 lines

/-- The loop of `_sanitize._strip`, with the mutable `keep` state passed
explicitly. -/
def stripLoop : Bool → List (List Char) → List (List Char)
  | _, [] => []
  | keep, line :: rest =>
    match containedMarker line with
    | some .START => stripLoop keep rest
    | some .SHRED => stripLoop keep rest
    | some .REPLACE => stripLoop false rest
    | some .END => stripLoop true rest
    | none => if keep then line :: stripLoop keep rest else stripLoop keep rest

/-- `_sanitize._strip`: the Strip-mode transform. -/
def stripLines (lines : List (List Char)) : List (List Char) :=
  stripLoop true lines

/-- A validation error: the line number (none for file-level errors) and
the message text.  The Python code renders these as f-strings of the form
"Line {n}: {msg}". -/
structure VErr where
  line : Option Nat
  msg : String
deriving DecidableEq, Repr

/-- Message of the START state-order error. -/
def msgStart : String := "START block must begin file or follow an END block"

/-- Message of the REPLACE state-order error. -/
def msgRepl : String := "REPLACE-WITH block must follow START block"

/-- Message of the END state-order error. -/
def msgEnd : String := "END block must follow START or REPLACE block"

/-- Message of the missing-prefix error. -/
def msgMiss : String := "Missing prefix"

/-- Message of the misplaced-SHRED error. -/
def msgShredLine : String := "SHRED marker only allowed on line 1"

/-- Message of the marker-after-SHRED error (typo preserved from source). -/
def msgShredAfter : String := "Marker is dissallowed after SHRED marker"

/-- File-level error: last marker was not an END marker. -/
def finalErr : VErr := ⟨none, "Final block must be an END block"⟩

/-- File-level error: no blocks were found. -/
def noMarkersErr : VErr := ⟨none, "There are no markers in the file"⟩

/-- The loop of `_syntax._check_shred_syntax`, with `has_shred_marker`
fixed and the 1-based line counter passed explicitly. -/
def shredLoop (hasShred : Bool) : Nat → List (List Char) → List VErr
  | _, [] => []
  | n, line :: rest =>
    let m := containedMarker line
    let e : List VErr :=
      if m = some .SHRED ∧ n ≠ 1 then [⟨some n, msgShredLine⟩]
      else if m.isSome ∧ m ≠ some .SHRED ∧ hasShred then
        [⟨some n, msgShredAfter⟩]
      else []
    e ++ shredLoop hasShred (n + 1) rest

/-- `_syntax._check_shred_syntax`: errors for SHRED-marker misuse. -/
def checkShredSyntax (lines : List (List Char)) : List VErr :=
  shredLoop (decide (containedMarker (lines.headD []) = some .SHRED)) 1 lines

/-- The mutable state of the `check_syntax` scan: `last`, `prefix` and
`has_blocks`. -/
structure ChkSt where
  last : Marker
  pfx : List Char
  hasBlocks : Bool
deriving DecidableEq, Repr

/-- One iteration of the `check_syntax` loop on line number `n`: the
updated state and the errors appended by this line (the state-order error
first, then the missing-prefix error). -/
def chkStep (n : Nat) (line : List Char) (s : ChkSt) : ChkSt × List VErr :=
  let m := containedMarker line
  let su : ChkSt × List VErr :=
    match m with
    | some .START =>
      (⟨.START, pfxBefore startTok line, true⟩,
       if s.last ≠ .END then [⟨some n, msgStart⟩] else [])
    | some .REPLACE =>
      ({ s with last := .REPLACE },
       if s.last ≠ .START then [⟨some n, msgRepl⟩] else [])
    | some .END =>
      ({ s with last := .END },
       if s.last ≠ .START ∧ s.last ≠ .REPLACE then [⟨some n, msgEnd⟩]
       else [])
    | _ => (s, [])
  let miss : List VErr :=
    if (su.1.last = .REPLACE ∨ m = some .END) ∧
        ¬ su.1.pfx.isPrefixOf line then
      [⟨some n, msgMiss⟩]
    else []
  (su.1, su.2 ++ miss)

/-- The full `check_syntax` scan from line number `n` in state `s`,
returning the final state and all errors appended by the loop. -/
def chkLoop : Nat → ChkSt → List (List Char) → ChkSt × List VErr
  | _, s, [] => (s, [])
  | n, s, line :: rest =>
    let p := chkStep n line s
    let q := chkLoop (n + 1) p.1 rest
    (q.1, p.2 ++ q.2)

/-- The initial scan state of `check_syntax`: `last = END`, empty prefix,
and `has_blocks` true exactly when line 1 carries the SHRED marker. -/
def initSt (lines : List (List Char)) : ChkSt :=
  ⟨.END, [],
   !lines.isEmpty && decide (containedMarker (lines.headD []) = some .SHRED)⟩

/-- The error list accumulated by the block-structure scan of
`check_syntax`: the loop errors, then the final-block error, then the
no-markers error. -/
def structuralErrors (lines : List (List Char)) : List VErr :=
  let r := chkLoop 1 (initSt lines) lines
  (r.2 ++ (if r.1.last ≠ .END then [finalErr] else [])) ++
    (if !r.1.hasBlocks then [noMarkersErr] else [])

/-- `_syntax.check_syntax`: raises `plug.PlugError` carrying the error
list (modelled by `Except.error`) when any error is found, and returns
`None` (modelled by `Except.ok ()`) otherwise.  The SHRED scan runs first
and short-circuits. -/
def checkSyntax (lines : List (List Char)) : Except (List VErr) Unit :=
  let shredErrs := checkShredSyntax lines
  if shredErrs.isEmpty then
    let errs := structuralErrors lines
    if errs.isEmpty then .ok () else .error errs
  else .error shredErrs

/-- Result of `_sanitize.sanitize_file`: either the file is deleted
(`file_abs_path.unlink()`, the ShredIntent) or sanitized text is
returned. -/
inductive SanResult where
  | shred
  | text (out : List (List Char))
deriving DecidableEq, Repr

/-- `_sanitize.sanitize_file` on the line list of the file's text: delete
the file when line 1 carries the SHRED marker, else return the sanitized
lines. -/
def sanitizeFile (lines : List (List Char)) : SanResult :=
  if containedMarker (lines.headD []) = some .SHRED then .shred
  else .text (sanitizeLines lines)

/-- A file as seen by `_syntax.file_is_dirty`: whether
`relpath.is_binary` holds, and the line list of its decoded text. -/
structure RepoFile where
  isBinary : Bool
  lines : List (List Char)

/-- `_syntax.file_is_dirty`: binary files are never dirty; a text file is
dirty when any line contains a marker. -/
def fileIsDirty (f : RepoFile) : Bool :=
  if f.isBinary then false
  else f.lines.any (fun l => (containedMarker l).isSome)

/-- Modelled from the spec: the "surrounding whitespace trimmed" operation
the spec applies to a captured prefix (Python `str.strip()`).  The code in
`_syntax.check_syntax` performs no such trimming. -/
def specTrim (l : List Char) : List Char :=
  ((l.dropWhile Char.isWhitespace).reverse.dropWhile Char.isWhitespace).reverse

/-- Modelled from the spec: the "left-trimmed text" of a line, against
which the spec's prefix-consistency check is made.  The code checks the
raw line instead. -/
def specLeftTrim (l : List Char) : List Char :=
  l.dropWhile Char.isWhitespace

/-- One marker block of a valid file: the Start line, the instructor
segment, the optional Replace line with its replacement segment, and the
End line. -/
structure Blk where
  startLine : List Char
  instr : List (List Char)
  rsec : Option (List Char × List (List Char))
  endLine : List Char

/-- The lines of the optional Replace section. -/
def rsecLines : Option (List Char × List (List Char)) → List (List Char)
  | some (rl, rs) => rl :: rs
  | none => []

/-- The raw lines of a block. -/
def blkLines (b : Blk) : List (List Char) :=
  b.startLine :: (b.instr ++ rsecLines b.rsec ++ [b.endLine])

/-- A decomposition of a valid marker-free-headed file: leading markerless
lines, then blocks each followed by its trailing markerless lines. -/
structure Decomp where
  pre : List (List Char)
  blocks : List (Blk × List (List Char))

/-- Rebuild a file from its decomposition. -/
def rebuild (d : Decomp) : List (List Char) :=
  d.pre ++ (d.blocks.map (fun p => blkLines p.1 ++ p.2)).flatten

/-- Well-formedness of a replace section: the Replace line carries the
REPLACE marker and the replacement-segment lines are markerless. -/
def rsecWf : Option (List Char × List (List Char)) → Prop
  | some (rl, rs) =>
    containedMarker rl = some .REPLACE ∧ ∀ l ∈ rs, containedMarker l = none
  | none => True

/-- Well-formedness of a block: the marker lines carry their markers and
the instructor segment is markerless. -/
def blkWf (b : Blk) : Prop :=
  containedMarker b.startLine = some .START ∧
    (∀ l ∈ b.instr, containedMarker l = none) ∧
    rsecWf b.rsec ∧
    containedMarker b.endLine = some .END

/-- Well-formedness of a decomposition: all segment lines markerless, all
marker lines carrying their markers. -/
def decompWf (d : Decomp) : Prop :=
  (∀ l ∈ d.pre, containedMarker l = none) ∧
    ∀ p ∈ d.blocks, blkWf p.1 ∧ ∀ l ∈ p.2, containedMarker l = none

/-- The Sanitize-mode output of a Replace section when the block's
captured prefix has length `p`: nothing when there is no Replace section,
otherwise the replacement-segment lines with their first `p` characters
removed. -/
def rOut : Option (List Char × List (List Char)) → Nat → List (List Char)
  | some (_, rs), p => rs.map (fun l => l.drop p)
  | none, _ => []

/-- The Sanitize-mode output a block contributes: its Replace section's
output, stripped by the length of the prefix captured from the Start
line. -/
def blkOut (b : Blk) : List (List Char) :=
  rOut b.rsec (pfxBefore startTok b.startLine).length

/-- The Sanitize-mode output of a decomposed file: the leading markerless
lines unchanged, then for each block its contribution followed by its
trailing markerless lines unchanged. -/
def specOut (d : Decomp) : List (List Char) :=
  d.pre ++ (d.blocks.map (fun p => blkOut p.1 ++ p.2)).flatten

/-- The line sequences accepted by the block state machine of
`check_syntax` from a given `last` state, restricted to sequences with no
SHRED-detected lines. -/
inductive Accept : Marker → List (List Char) → Prop
  | nil : Accept .END []
  | mkl {st l rest} : containedMarker l = none → Accept st rest →
      Accept st (l :: rest)
  | start {l rest} : containedMarker l = some .START → Accept .START rest →
      Accept .END (l :: rest)
  | repl {l rest} : containedMarker l = some .REPLACE →
      Accept .REPLACE rest → Accept .START (l :: rest)
  | end1 {l rest} : containedMarker l = some .END → Accept .END rest →
      Accept .START (l :: rest)
  | end2 {l rest} : containedMarker l = some .END → Accept .END rest →
      Accept .REPLACE (l :: rest)

/-- The Sanitize-mode transform agrees with the segment semantics on a
whole file: some well-formed decomposition rebuilds the input, and the
output is the decomposition's specified output. -/
def SanDecomp (lines : List (List Char)) : Prop :=
  ∃ d : Decomp, decompWf d ∧ rebuild d = lines ∧
    sanLoop true 0 lines = specOut d

/-- The Sanitize-mode transform agrees with the segment semantics on a
suffix that starts inside a block right after its Start line: the suffix
is an instructor segment, an optional Replace section, the End line, and
a well-formed remainder; for every captured prefix length `p` the
transform keeps only the Replace section stripped by `p` and the
remainder's output. -/
def SanTailStart (lines : List (List Char)) : Prop :=
  ∃ (instr : List (List Char)) (r : Option (List Char × List (List Char)))
    (e : List Char) (d : Decomp),
    (∀ l ∈ instr, containedMarker l = none) ∧ rsecWf r ∧
    containedMarker e = some .END ∧ decompWf d ∧
    lines = instr ++ (rsecLines r ++ e :: rebuild d) ∧
    ∀ p, sanLoop false p lines = rOut r p ++ specOut d

/-- The Sanitize-mode transform agrees with the segment semantics on a
suffix that starts inside a Replace section: the suffix is the
replacement segment, the End line, and a well-formed remainder; for every
captured prefix length `p` the transform emits the replacement segment
stripped by `p` and the remainder's output. -/
def SanTailRepl (lines : List (List Char)) : Prop :=
  ∃ (rs : List (List Char)) (e : List Char) (d : Decomp),
    (∀ l ∈ rs, containedMarker l = none) ∧
    containedMarker e = some .END ∧ decompWf d ∧
    lines = rs ++ e :: rebuild d ∧
    ∀ p, sanLoop true p lines = rs.map (fun l => l.drop p) ++ specOut d

/-- The concrete example file of the spec's §8. -/
def exLines : List (List Char) :=
  ["// REPOBEE-SANITIZER-START".toList, "secret".toList,
   "// REPOBEE-SANITIZER-REPLACE-WITH".toList, "// public".toList,
   "// REPOBEE-SANITIZER-END".toList]

/-- C4: the five-line example file passes validation with zero errors, its
Sanitize-mode transform is exactly ["public"], and its Strip-mode
transform is exactly ["secret"]. -/
theorem c4_example_file :
    checkSyntax exLines = .ok () ∧
    sanitizeLines exLines = ["public".toList] ∧
    stripLines exLines = ["secret".toList] :=
  ⟨rfl, by decide, by decide⟩

/-- C3 counterexample: on the empty line sequence `check_syntax` does not
return the error list; it raises `plug.PlugError` carrying it (the
`Except.error` branch), so "validate returns a (possibly empty) list of
ValidationErrors rather than raising" fails at the concrete input `[]`. -/
theorem c3_validator_raises_on_empty :
    checkSyntax [] = Except.error [noMarkersErr] := rfl

/-- C3 amended: the error computation of `check_syntax` is total — on
every line sequence it either returns normally (empty error list) or
raises `plug.PlugError` carrying a nonempty error list, and the empty
sequence raises with exactly the "no markers" error. -/
theorem c3_validator_total :
    (∀ lines, checkSyntax lines = .ok () ∨
      ∃ errs, errs ≠ ([] : List VErr) ∧ checkSyntax lines = .error errs) ∧
    checkSyntax [] = .error [noMarkersErr] := by
  refine ⟨fun lines => ?_, rfl⟩
  unfold checkSyntax
  by_cases h1 : (checkShredSyntax lines).isEmpty
  · by_cases h2 : (structuralErrors lines).isEmpty
    · left
      simp [h1, h2]
    · right
      refine ⟨structuralErrors lines, ?_, ?_⟩
      · intro hnil
        simp [hnil] at h2
      · simp [h1, h2]
  · right
    refine ⟨checkShredSyntax lines, ?_, ?_⟩
    · intro hnil
      simp [hnil] at h1
    · simp [h1]

/-- C9 counterexample: processing an End marker line sets `last` to End
but does not clear the captured prefix — on a concrete End line from a
state whose prefix is "// ", the prefix after the step is still "// ",
not the empty string. -/
theorem c9_end_keeps_pfx_concrete :
    (chkStep 5 "// REPOBEE-SANITIZER-END".toList
        ⟨.REPLACE, "// ".toList, true⟩).1.last = .END ∧
    (chkStep 5 "// REPOBEE-SANITIZER-END".toList
        ⟨.REPLACE, "// ".toList, true⟩).1.pfx = "// ".toList ∧
    "// ".toList ≠ ([] : List Char) := by
  decide

/-- C9 amended: on an End marker line the validator sets `last` to End
and leaves both `current_prefix` and `has_blocks` unchanged, so a prefix
check performed on a stray End line after a block closes is made against
the previous block's retained prefix, not against an empty one. -/
theorem c9_end_marker_step (n : Nat) (line : List Char) (s : ChkSt)
    (h : containedMarker line = some .END) :
    (chkStep n line s).1.last = .END ∧
    (chkStep n line s).1.pfx = s.pfx ∧
    (chkStep n line s).1.hasBlocks = s.hasBlocks := by
  simp [chkStep, h]

/-- C9 amended witness at a concrete End line and state. -/
theorem c9_end_marker_step_witness :
    (chkStep 5 "// REPOBEE-SANITIZER-END".toList
        ⟨.REPLACE, "// ".toList, true⟩).1.last = .END ∧
    (chkStep 5 "// REPOBEE-SANITIZER-END".toList
        ⟨.REPLACE, "// ".toList, true⟩).1.pfx =
      (⟨.REPLACE, "// ".toList, true⟩ : ChkSt).pfx ∧
    (chkStep 5 "// REPOBEE-SANITIZER-END".toList
        ⟨.REPLACE, "// ".toList, true⟩).1.hasBlocks =
      (⟨.REPLACE, "// ".toList, true⟩ : ChkSt).hasBlocks :=
  c9_end_marker_step 5 "// REPOBEE-SANITIZER-END".toList
    ⟨.REPLACE, "// ".toList, true⟩ (by decide)

/-- C10: `file_is_dirty` is false on every binary file regardless of its
text, and a file reported dirty is necessarily non-binary. -/
theorem c10_binary_never_dirty :
    (∀ L, fileIsDirty ⟨true, L⟩ = false) ∧
    (∀ f : RepoFile, fileIsDirty f = true → f.isBinary = false) := by
  constructor
  · intro L
    simp [fileIsDirty]
  · intro f h
    by_contra hb
    simp only [Bool.not_eq_false] at hb
    simp [fileIsDirty, hb] at h

/-- C10 witness: a concrete marker-carrying text file is dirty and
non-binary. -/
theorem c10_binary_never_dirty_witness :
    (RepoFile.mk false ["REPOBEE-SANITIZER-SHRED".toList]).isBinary = false :=
  c10_binary_never_dirty.2 ⟨false, ["REPOBEE-SANITIZER-SHRED".toList]⟩
    (by decide)

/-- C7: for every syntax-valid input, `sanitize_file` deletes the file
(returns the ShredIntent) exactly when line 1 carries the SHRED marker,
and on every other valid input it returns the sanitized text, never the
delete signal. -/
theorem c7_shred_dispatch (lines : List (List Char))
    (_hv : checkSyntax lines = .ok ()) :
    (sanitizeFile lines = .shred ↔
      containedMarker (lines.headD []) = some .SHRED) ∧
    (containedMarker (lines.headD []) ≠ some .SHRED →
      sanitizeFile lines = .text (sanitizeLines lines)) := by
  unfold sanitizeFile
  by_cases h : containedMarker (lines.headD []) = some .SHRED
  · simp [h]
  · simp [h]

/-- C7 witness: the one-line SHRED file is syntax-valid and is deleted;
the example file's head is not SHRED and it is transformed to text. -/
theorem c7_shred_dispatch_witness :
    (sanitizeFile ["REPOBEE-SANITIZER-SHRED".toList] = .shred ↔
      containedMarker ((["REPOBEE-SANITIZER-SHRED".toList] :
        List (List Char)).headD []) = some .SHRED) ∧
    sanitizeFile exLines = .text (sanitizeLines exLines) :=
  ⟨(c7_shred_dispatch ["REPOBEE-SANITIZER-SHRED".toList] rfl).1,
   (c7_shred_dispatch exLines rfl).2 (by decide)⟩

/-- Every line emitted by `_strip` comes from the markerless branch of
its loop. -/
theorem strip_all_markerless (lines : List (List Char)) :
    ∀ keep l, l ∈ stripLoop keep lines → containedMarker l = none := by
  induction lines with
  | nil =>
    intro keep l h
    simp [stripLoop] at h
  | cons x rest ih =>
    intro keep l h
    cases hm : containedMarker x with
    | none =>
      rw [stripLoop, hm] at h
      cases keep with
      | true =>
        simp at h
        rcases h with h | h
        · exact h ▸ hm
        · exact ih true l h
      | false =>
        simp at h
        exact ih false l h
    | some m =>
      rw [stripLoop, hm] at h
      cases m with
      | START => exact ih keep l h
      | SHRED => exact ih keep l h
      | REPLACE => exact ih false l h
      | END => exact ih true l h

/-- `_strip` is the identity on files whose every line is markerless. -/
theorem strip_id_of_markerless (lines : List (List Char))
    (h : ∀ l ∈ lines, containedMarker l = none) :
    stripLoop true lines = lines := by
  induction lines with
  | nil => rfl
  | cons x rest ih =>
    have hx : containedMarker x = none := h x (by simp)
    rw [stripLoop, hx]
    simp only [if_pos trivial, List.cons.injEq, true_and]
    exact ih fun l hl => h l (by simp [hl])

/-- C8: for every syntax-valid input, Strip-mode output contains no
marker token on any line, and Strip is idempotent on it. -/
theorem c8_strip_markerless_idempotent (lines : List (List Char))
    (_hv : checkSyntax lines = .ok ()) :
    (∀ l ∈ stripLines lines, containedMarker l = none) ∧
    stripLines (stripLines lines) = stripLines lines := by
  constructor
  · exact fun l hl => strip_all_markerless lines true l hl
  · exact strip_id_of_markerless (stripLoop true lines)
      (fun l hl => strip_all_markerless lines true l hl)

/-- C8 witness at the spec's example file. -/
theorem c8_strip_markerless_idempotent_witness :
    (∀ l ∈ stripLines exLines, containedMarker l = none) ∧
    stripLines (stripLines exLines) = stripLines exLines :=
  c8_strip_markerless_idempotent exLines rfl

/-- Every error produced by the SHRED scan carries one of the two
shred-misuse messages. -/
theorem shred_errors_msgs (lines : List (List Char)) :
    ∀ hs n, ∀ e ∈ shredLoop hs n lines,
      e.msg = msgShredLine ∨ e.msg = msgShredAfter := by
  induction lines with
  | nil =>
    intro hs n e he
    simp [shredLoop] at he
  | cons x rest ih =>
    intro hs n e he
    rw [shredLoop] at he
    simp only [List.mem_append] at he
    rcases he with he | he
    · split_ifs at he <;> simp at he <;> simp [he]
    · exact ih hs (n + 1) e he

/-- C6: when the SHRED-placement scan finds violations, `check_syntax`
raises exactly those errors and the block-structure scan contributes
nothing: every reported error carries a shred-misuse message. -/
theorem c6_shred_short_circuit (lines : List (List Char))
    (h : checkShredSyntax lines ≠ []) :
    checkSyntax lines = .error (checkShredSyntax lines) ∧
    ∀ e ∈ checkShredSyntax lines,
      e.msg = msgShredLine ∨ e.msg = msgShredAfter := by
  constructor
  · have hne : (checkShredSyntax lines).isEmpty = false := by
      cases he : checkShredSyntax lines with
      | nil => exact absurd he h
      | cons a t => simp
    unfold checkSyntax
    simp [hne]
  · exact fun e he => shred_errors_msgs lines _ 1 e he

/-- C6 witness: a SHRED marker on line 2 short-circuits validation. -/
theorem c6_shred_short_circuit_witness :
    checkSyntax ["x".toList, "REPOBEE-SANITIZER-SHRED".toList] =
      .error (checkShredSyntax
        ["x".toList, "REPOBEE-SANITIZER-SHRED".toList]) ∧
    ∀ e ∈ checkShredSyntax ["x".toList, "REPOBEE-SANITIZER-SHRED".toList],
      e.msg = msgShredLine ∨ e.msg = msgShredAfter :=
  c6_shred_short_circuit ["x".toList, "REPOBEE-SANITIZER-SHRED".toList]
    (by decide)

/-- C2 counterexample: on the Start line "  // REPOBEE-SANITIZER-START"
the captured prefix is the untrimmed "  // ", not the trimmed "// " the
claim describes; with the End line "// REPOBEE-SANITIZER-END" the code
reports "Missing prefix" although the claim's check (left-trimmed line
against trimmed prefix) accepts. -/
theorem c2_capture_not_trimmed :
    (chkStep 1 "  // REPOBEE-SANITIZER-START".toList
        (initSt ["  // REPOBEE-SANITIZER-START".toList])).1.pfx ≠
      specTrim (pfxBefore startTok "  // REPOBEE-SANITIZER-START".toList) ∧
    checkSyntax ["  // REPOBEE-SANITIZER-START".toList,
        "// REPOBEE-SANITIZER-END".toList] =
      .error [⟨some 2, msgMiss⟩] ∧
    (specTrim
        (pfxBefore startTok "  // REPOBEE-SANITIZER-START".toList)).isPrefixOf
      (specLeftTrim "// REPOBEE-SANITIZER-END".toList) = true :=
  ⟨by decide, rfl, by decide⟩

/-- C2 amended: the prefix captured on a Start line is the exact
(untrimmed) text preceding the Start token, and the per-line check emits
"missing prefix" exactly when the applicable line (a line scanned in the
Replace state or an End line) does not start, untrimmed, with the
captured prefix. -/
theorem c2_pfx_capture_and_check (n : Nat) (line : List Char) (s : ChkSt) :
    (containedMarker line = some .START →
      (chkStep n line s).1.pfx = pfxBefore startTok line) ∧
    (⟨some n, msgMiss⟩ ∈ (chkStep n line s).2 ↔
      (((chkStep n line s).1.last = .REPLACE ∨
          containedMarker line = some .END) ∧
        (chkStep n line s).1.pfx.isPrefixOf line = false)) := by
  have hpf : ∀ p l : List Char, (¬ p <+: l) ↔ p.isPrefixOf l = false := by
    intro p l
    simp [← List.isPrefixOf_iff_prefix]
  cases hm : containedMarker line with
  | none =>
    constructor
    · intro h
      exact absurd h (by simp)
    · simp [chkStep, hm]
      intro _
      exact hpf s.pfx line
  | some m =>
    cases m with
    | START =>
      constructor
      · intro _
        simp [chkStep, hm]
      · simp [chkStep, hm]
        intro _
        decide
    | REPLACE =>
      constructor
      · intro h
        exact absurd h (by simp)
      · simp [chkStep, hm, show ¬ msgMiss = msgRepl by decide]
        exact hpf s.pfx line
    | END =>
      constructor
      · intro h
        exact absurd h (by simp)
      · simp [chkStep, hm, show ¬ msgMiss = msgEnd by decide]
        exact hpf s.pfx line
    | SHRED =>
      constructor
      · intro h
        exact absurd h (by simp)
      · simp [chkStep, hm]
        intro _
        exact hpf s.pfx line

/-- C2 amended witness: concrete capture on a Start line and a concrete
missing-prefix emission on an End line. -/
theorem c2_pfx_capture_and_check_witness :
    (chkStep 1 "  // REPOBEE-SANITIZER-START".toList
        (initSt ["  // REPOBEE-SANITIZER-START".toList])).1.pfx =
      pfxBefore startTok "  // REPOBEE-SANITIZER-START".toList ∧
    (⟨some 2, msgMiss⟩ : VErr) ∈
      (chkStep 2 "// REPOBEE-SANITIZER-END".toList
        ⟨.START, "  // ".toList, true⟩).2 :=
  ⟨(c2_pfx_capture_and_check 1 "  // REPOBEE-SANITIZER-START".toList
      (initSt ["  // REPOBEE-SANITIZER-START".toList])).1 (by decide),
   (c2_pfx_capture_and_check 2 "// REPOBEE-SANITIZER-END".toList
      ⟨.START, "  // ".toList, true⟩).2.mpr (by decide)⟩

/-- `has_blocks` after one scan step: set by a START marker line,
unchanged otherwise. -/
theorem step_hasBlocks (n : Nat) (line : List Char) (s : ChkSt) :
    (chkStep n line s).1.hasBlocks =
      (s.hasBlocks || decide (containedMarker line = some .START)) := by
  cases hm : containedMarker line with
  | none => simp [chkStep, hm]
  | some m => cases m <;> simp [chkStep, hm]

/-- `has_blocks` after the scan: its initial value or some line carries
a START marker. -/
theorem loop_hasBlocks (lines : List (List Char)) :
    ∀ n s, (chkLoop n s lines).1.hasBlocks =
      (s.hasBlocks ||
        lines.any fun l => decide (containedMarker l = some .START)) := by
  induction lines with
  | nil => intro n s; simp [chkLoop]
  | cons x rest ih =>
    intro n s
    rw [chkLoop]
    simp only [List.any_cons]
    rw [ih (n + 1) (chkStep n x s).1, step_hasBlocks, Bool.or_assoc]

/-- Every error a scan step appends is positioned at that step's line
number. -/
theorem step_errs_line (n : Nat) (line : List Char) (s : ChkSt) :
    ∀ e ∈ (chkStep n line s).2, e.line = some n := by
  intro e he
  cases hm : containedMarker line with
  | none =>
    simp [chkStep, hm] at he
    obtain ⟨-, rfl⟩ := he
    rfl
  | some m =>
    cases m with
    | START =>
      simp [chkStep, hm] at he
      obtain ⟨-, rfl⟩ := he
      rfl
    | REPLACE =>
      simp [chkStep, hm] at he
      rcases he with ⟨-, rfl⟩ | ⟨-, rfl⟩ <;> rfl
    | END =>
      simp [chkStep, hm] at he
      rcases he with ⟨-, rfl⟩ | ⟨-, rfl⟩ <;> rfl
    | SHRED =>
      simp [chkStep, hm] at he
      obtain ⟨-, rfl⟩ := he
      rfl

/-- Every error appended by the scan loop is positioned at some line. -/
theorem loop_errs_line (lines : List (List Char)) :
    ∀ n s e, e ∈ (chkLoop n s lines).2 → ∃ k, e.line = some k := by
  induction lines with
  | nil => intro n s e he; simp [chkLoop] at he
  | cons x rest ih =>
    intro n s e he
    rw [chkLoop] at he
    simp only [List.mem_append] at he
    rcases he with he | he
    · exact ⟨n, step_errs_line n x s e he⟩
    · exact ih (n + 1) (chkStep n x s).1 e he


/-- The SHRED scan reports nothing on marker-free input. -/
theorem shred_nil_of_markerless (lines : List (List Char))
    (h : ∀ l ∈ lines, containedMarker l = none) :
    ∀ hs n, shredLoop hs n lines = [] := by
  induction lines with
  | nil => intro hs n; rfl
  | cons x rest ih =>
    intro hs n
    have hx : containedMarker x = none := h x (by simp)
    rw [shredLoop]
    simp [hx]
    exact ih (fun l hl => h l (by simp [hl])) hs (n + 1)

/-- On marker-free input the scan loop neither changes state nor reports
errors (from any state not in the Replace segment). -/
theorem loop_id_of_markerless (lines : List (List Char)) :
    ∀ n s, s.last ≠ .REPLACE → (∀ l ∈ lines, containedMarker l = none) →
      chkLoop n s lines = (s, []) := by
  induction lines with
  | nil => intro n s _ _; rfl
  | cons x rest ih =>
    intro n s hlast h
    have hx : containedMarker x = none := h x (by simp)
    have hstep : chkStep n x s = (s, []) := by
      simp [chkStep, hx, hlast]
    rw [chkLoop, hstep]
    simp [ih (n + 1) s hlast (fun l hl => h l (by simp [hl]))]

/-- C5 amended: the "no markers" error is reported exactly when no line
carries a START marker and line 1 does not carry the SHRED marker (the
code's `has_blocks` flag ignores REPLACE and END markers); and every
marker-free line sequence yields exactly one error, the "no markers"
error. -/
theorem c5_no_markers_characterization :
    (∀ lines, noMarkersErr ∈ structuralErrors lines ↔
      ((∀ l ∈ lines, containedMarker l ≠ some .START) ∧
        containedMarker (lines.headD []) ≠ some .SHRED)) ∧
    (∀ lines, (∀ l ∈ lines, containedMarker l = none) →
      checkSyntax lines = .error [noMarkersErr]) := by
  constructor
  · intro lines
    unfold structuralErrors
    simp only [List.mem_append]
    have hb := loop_hasBlocks lines 1 (initSt lines)
    constructor
    · rintro ((h | h) | h)
      · obtain ⟨k, hk⟩ := loop_errs_line lines 1 (initSt lines) noMarkersErr h
        simp [noMarkersErr] at hk
      · split_ifs at h with hc
        · simp [noMarkersErr, finalErr] at h
        · simp at h
      · split_ifs at h with hc
        · simp only [Bool.not_eq_true'] at hc
          rw [hb] at hc
          simp only [Bool.or_eq_false_iff] at hc
          obtain ⟨hinit, hany⟩ := hc
          constructor
          · intro l hl
            simp only [List.any_eq_false] at hany
            simpa using hany l hl
          · cases lines with
            | nil => decide
            | cons y t =>
              simp [initSt] at hinit
              simpa using hinit
        · simp at h
    · rintro ⟨hstart, hshred⟩
      right
      have hinit : (initSt lines).hasBlocks = false := by
        cases lines with
        | nil => rfl
        | cons y t =>
          have hy : ¬ containedMarker y = some .SHRED := by
            simpa using hshred
          simp [initSt, hy]
      have hany : (lines.any fun l =>
          decide (containedMarker l = some .START)) = false := by
        rw [List.any_eq_false]
        intro x hx
        simp [hstart x hx]
      have : (chkLoop 1 (initSt lines) lines).1.hasBlocks = false := by
        rw [hb, hinit, hany]
        rfl
      simp [this]
  · intro lines h
    have hshred : checkShredSyntax lines = [] := by
      unfold checkShredSyntax
      exact shred_nil_of_markerless lines h _ 1
    have hloop : chkLoop 1 (initSt lines) lines = (initSt lines, []) :=
      loop_id_of_markerless lines 1 (initSt lines) (by simp [initSt]) h
    have hinit : (initSt lines).hasBlocks = false := by
      cases lines with
      | nil => rfl
      | cons y t =>
        have hy : containedMarker y = none := h y (by simp)
        simp [initSt, hy]
    have hstruct : structuralErrors lines = [noMarkersErr] := by
      have hl : (initSt lines).last = .END := rfl
      unfold structuralErrors
      rw [hloop]
      simp [hinit, hl]
    unfold checkSyntax
    rw [hshred, hstruct]
    rfl


/-- C5 counterexample: the one-line file "REPOBEE-SANITIZER-END" carries
an END marker, yet `check_syntax` still reports the "no markers in the
file" error (together with the state-order error), so the error is not
reported "exactly when no Start, Replace, End, or Shred marker token was
observed". -/
theorem c5_end_marker_still_no_markers_error :
    containedMarker "REPOBEE-SANITIZER-END".toList = some .END ∧
    checkSyntax ["REPOBEE-SANITIZER-END".toList] =
      .error [⟨some 1, msgEnd⟩, noMarkersErr] :=
  ⟨by decide, rfl⟩

/-- C5 amended witness: a concrete marker-free file yields exactly the
"no markers" error. -/
theorem c5_no_markers_characterization_witness :
    checkSyntax ["x".toList] = .error [noMarkersErr] :=
  c5_no_markers_characterization.2 ["x".toList] (by decide)

/-- From line 2 onward, an error-free SHRED scan means no line is
SHRED-detected. -/
theorem shred_tail_no_shred (lines : List (List Char)) :
    ∀ hs n, 2 ≤ n → shredLoop hs n lines = [] →
      ∀ l ∈ lines, containedMarker l ≠ some .SHRED := by
  induction lines with
  | nil => intro hs n _ _ l hl; simp at hl
  | cons x rest ih =>
    intro hs n hn h l hl
    rw [shredLoop] at h
    rcases List.append_eq_nil.mp h with ⟨h1, h2⟩
    rcases List.mem_cons.mp hl with hl | hl
    · subst hl
      intro hx
      have hn1 : n ≠ 1 := by omega
      simp [hx, hn1] at h1
    · exact ih hs (n + 1) (by omega) h2 l hl

/-- When the SHRED scan reports nothing and line 1 is not SHRED-detected,
no line of the file is SHRED-detected. -/
theorem no_shred_lines (lines : List (List Char))
    (hok : checkShredSyntax lines = [])
    (hhead : containedMarker (lines.headD []) ≠ some .SHRED) :
    ∀ l ∈ lines, containedMarker l ≠ some .SHRED := by
  cases lines with
  | nil => intro l hl; simp at hl
  | cons x rest =>
    intro l hl
    unfold checkShredSyntax at hok
    rw [shredLoop] at hok
    rcases List.append_eq_nil.mp hok with ⟨-, h2⟩
    rcases List.mem_cons.mp hl with hl | hl
    · subst hl
      simpa using hhead
    · exact shred_tail_no_shred rest _ 2 (by omega) h2 l hl

/-- Completeness of the block state machine: an error-free scan that ends
in the End state, over a file with no SHRED-detected lines, accepts an
input of the block grammar. -/
theorem loop_accept (lines : List (List Char)) :
    ∀ n s, (chkLoop n s lines).2 = [] → (chkLoop n s lines).1.last = .END →
      (∀ l ∈ lines, containedMarker l ≠ some .SHRED) →
      Accept s.last lines := by
  induction lines with
  | nil =>
    intro n s he hl _
    simp [chkLoop] at hl
    rw [hl]
    exact Accept.nil
  | cons x rest ih =>
    intro n s he hl hns
    rw [chkLoop] at he hl
    simp only at he hl
    rcases List.append_eq_nil.mp he with ⟨h1, h2⟩
    have hrest : ∀ l ∈ rest, containedMarker l ≠ some .SHRED :=
      fun l hll => hns l (by simp [hll])
    have ihr := ih (n + 1) (chkStep n x s).1 h2 hl hrest
    cases hm : containedMarker x with
    | none =>
      have hst : (chkStep n x s).1 = s := by
        simp [chkStep, hm]
      rw [hst] at ihr
      exact Accept.mkl hm ihr
    | some m =>
      cases m with
      | START =>
        have hst : (chkStep n x s).1.last = .START := by
          simp [chkStep, hm]
        have hlast : s.last = .END := by
          by_contra hc
          simp [chkStep, hm, hc] at h1
        rw [hlast]
        rw [hst] at ihr
        exact Accept.start hm ihr
      | REPLACE =>
        have hst : (chkStep n x s).1.last = .REPLACE := by
          simp [chkStep, hm]
        have hlast : s.last = .START := by
          by_contra hc
          simp [chkStep, hm, hc] at h1
        rw [hlast]
        rw [hst] at ihr
        exact Accept.repl hm ihr
      | END =>
        have hst : (chkStep n x s).1.last = .END := by
          simp [chkStep, hm]
        have hlast : s.last = .START ∨ s.last = .REPLACE := by
          by_contra hc
          push_neg at hc
          simp [chkStep, hm, hc.1, hc.2] at h1
        rw [hst] at ihr
        rcases hlast with hlast | hlast
        · rw [hlast]
          exact Accept.end1 hm ihr
        · rw [hlast]
          exact Accept.end2 hm ihr
      | SHRED =>
        exact absurd hm (hns x (by simp))


/-- Soundness of the Sanitize transform over accepted inputs: from the
End state the file decomposes into markerless lines and well-formed
blocks, and `_sanitize` produces exactly the decomposition's specified
output; from the Start and Replace states the corresponding suffix
properties hold for every captured prefix length. -/
theorem accept_decomp {st : Marker} {lines : List (List Char)}
    (h : Accept st lines) :
    (st = .END → SanDecomp lines) ∧
    (st = .START → SanTailStart lines) ∧
    (st = .REPLACE → SanTailRepl lines) := by
  induction h with
  | nil =>
    refine ⟨fun _ => ?_, fun hst => absurd hst (by decide),
      fun hst => absurd hst (by decide)⟩
    exact ⟨⟨[], []⟩, by simp [decompWf], rfl, rfl⟩
  | @mkl st l rest hm ha ih =>
    refine ⟨fun hst => ?_, fun hst => ?_, fun hst => ?_⟩
    · obtain ⟨d, hwf, hre, hsan⟩ := ih.1 hst
      refine ⟨⟨l :: d.pre, d.blocks⟩, ⟨?_, hwf.2⟩, ?_, ?_⟩
      · intro y hy
        rcases List.mem_cons.mp hy with hy | hy
        · exact hy ▸ hm
        · exact hwf.1 y hy
      · simp only [rebuild] at hre ⊢
        rw [List.cons_append, hre]
      · have h1 : sanLoop true 0 (l :: rest) = l :: sanLoop true 0 rest := by
          simp [sanLoop, hm]
        rw [h1, hsan]
        simp [specOut]
    · obtain ⟨instr, r, e, d, hi, hr, he, hwf, heq, hsan⟩ := ih.2.1 hst
      refine ⟨l :: instr, r, e, d, ?_, hr, he, hwf, ?_, ?_⟩
      · intro y hy
        rcases List.mem_cons.mp hy with hy | hy
        · exact hy ▸ hm
        · exact hi y hy
      · rw [List.cons_append, ← heq]
      · intro p
        have h1 : sanLoop false p (l :: rest) = sanLoop false p rest := by
          simp [sanLoop, hm]
        rw [h1, hsan p]
    · obtain ⟨rs, e, d, hrs, he, hwf, heq, hsan⟩ := ih.2.2 hst
      refine ⟨l :: rs, e, d, ?_, he, hwf, ?_, ?_⟩
      · intro y hy
        rcases List.mem_cons.mp hy with hy | hy
        · exact hy ▸ hm
        · exact hrs y hy
      · rw [List.cons_append, ← heq]
      · intro p
        have h1 : sanLoop true p (l :: rest) =
            l.drop p :: sanLoop true p rest := by
          simp [sanLoop, hm]
        rw [h1, hsan p]
        simp
  | @start l rest hm ha ih =>
    refine ⟨fun _ => ?_, fun hst => absurd hst (by decide),
      fun hst => absurd hst (by decide)⟩
    obtain ⟨instr, r, e, d, hi, hr, he, hwf, heq, hsan⟩ := ih.2.1 rfl
    refine ⟨⟨[], (⟨l, instr, r, e⟩, d.pre) :: d.blocks⟩, ?_, ?_, ?_⟩
    · refine ⟨by simp, ?_⟩
      intro p hp
      rcases List.mem_cons.mp hp with hp | hp
      · subst hp
        exact ⟨⟨hm, hi, hr, he⟩, hwf.1⟩
      · exact hwf.2 p hp
    · simp only [rebuild, blkLines, List.map_cons, List.flatten_cons,
        List.nil_append]
      rw [heq]
      simp [rebuild, blkLines, List.append_assoc]
    · have h1 : sanLoop true 0 (l :: rest) =
          sanLoop false (pfxBefore startTok l).length rest := by
        simp [sanLoop, hm]
      rw [h1, hsan ((pfxBefore startTok l).length)]
      simp [specOut, blkOut, List.append_assoc]
  | @repl l rest hm ha ih =>
    refine ⟨fun hst => absurd hst (by decide), fun _ => ?_,
      fun hst => absurd hst (by decide)⟩
    obtain ⟨rs, e, d, hrs, he, hwf, heq, hsan⟩ := ih.2.2 rfl
    refine ⟨[], some (l, rs), e, d, by simp, ⟨hm, hrs⟩, he, hwf, ?_, ?_⟩
    · simp [rsecLines, heq]
    · intro p
      have h1 : sanLoop false p (l :: rest) = sanLoop true p rest := by
        simp [sanLoop, hm]
      rw [h1, hsan p]
      simp [rOut]
  | @end1 l rest hm ha ih =>
    refine ⟨fun hst => absurd hst (by decide), fun _ => ?_,
      fun hst => absurd hst (by decide)⟩
    obtain ⟨d, hwf, hre, hsan⟩ := ih.1 rfl
    refine ⟨[], none, l, d, by simp, trivial, hm, hwf, ?_, ?_⟩
    · simp [rsecLines, hre]
    · intro p
      have h1 : sanLoop false p (l :: rest) = sanLoop true 0 rest := by
        simp [sanLoop, hm]
      rw [h1, hsan]
      simp [rOut]
  | @end2 l rest hm ha ih =>
    refine ⟨fun hst => absurd hst (by decide),
      fun hst => absurd hst (by decide), fun _ => ?_⟩
    obtain ⟨d, hwf, hre, hsan⟩ := ih.1 rfl
    refine ⟨[], l, d, by simp, hm, hwf, ?_, ?_⟩
    · simp [hre]
    · intro p
      have h1 : sanLoop true p (l :: rest) = sanLoop true 0 rest := by
        simp [sanLoop, hm]
      rw [h1, hsan]
      simp


/-- C1: every syntax-valid input whose first line does not carry the
SHRED token decomposes into markerless lines and well-formed blocks, and
the Sanitize-mode transform emits no marker line, drops every
instructor-segment line, emits every replacement-segment line with its
first `prefix_len` characters removed, and emits every line outside any
block unchanged: its output is exactly the decomposition's leading lines,
per-block stripped replacement segments, and trailing lines. -/
theorem c1_sanitize_segments (lines : List (List Char))
    (hv : checkSyntax lines = .ok ())
    (hh : containedMarker (lines.headD []) ≠ some .SHRED) :
    ∃ d : Decomp, decompWf d ∧ rebuild d = lines ∧
      sanitizeLines lines = specOut d := by
  unfold checkSyntax at hv
  by_cases h1 : (checkShredSyntax lines).isEmpty
  case neg => simp [h1] at hv
  by_cases h2 : (structuralErrors lines).isEmpty
  case neg => simp [h1, h2] at hv
  have hsh : checkShredSyntax lines = [] := List.isEmpty_iff.mp h1
  have hst : structuralErrors lines = [] := List.isEmpty_iff.mp h2
  unfold structuralErrors at hst
  rcases List.append_eq_nil.mp hst with ⟨hst1, -⟩
  rcases List.append_eq_nil.mp hst1 with ⟨hloopE, hfin⟩
  have hlast : (chkLoop 1 (initSt lines) lines).1.last = .END := by
    by_contra hc
    simp [hc] at hfin
  have hns := no_shred_lines lines hsh hh
  have hacc : Accept .END lines :=
    loop_accept lines 1 (initSt lines) hloopE hlast hns
  exact (accept_decomp hacc).1 rfl

/-- C1 witness at the spec's example file. -/
theorem c1_sanitize_segments_witness :
    checkSyntax exLines = .ok () ∧
    containedMarker (exLines.headD []) ≠ some .SHRED ∧
    ∃ d : Decomp, decompWf d ∧ rebuild d = exLines ∧
      sanitizeLines exLines = specOut d :=
  ⟨rfl, by decide, c1_sanitize_segments exLines rfl (by decide)⟩

end Sanitizer
